import Mathlib

/-!
Shallow embedding of the pngme chunk codec: `ChunkType` (src/chunk_type.rs),
`Chunk` (src/chunk.rs) and the `Png` container.  Bytes are modelled as `Nat`
values (< 256 where the Rust type `u8` guarantees it), `u32` values as `Nat`
with explicit reductions modulo 2^32 where overflow matters, and fallible
Rust functions as `Option`/`Except`.
-/

set_option maxRecDepth 100000

namespace Pngme

/-- Byte legality test from `ChunkType::try_from`:
`matches!(val, 65..=90 | 97..=122)`. -/
def isLetter (b : Nat) : Bool :=
  (decide (65 ≤ b) && decide (b ≤ 90)) || (decide (97 ≤ b) && decide (b ≤ 122))

/-- The validated 4-byte chunk-type identifier (`struct ChunkType`). -/
structure ChunkType where
  bytes : List Nat
deriving DecidableEq, Repr

/-- Error of `ChunkType::try_from`: `TryFromChunkTypeError { index, value }`. -/
structure TryFromChunkTypeError where
  index : Nat
  value : Nat
deriving DecidableEq, Repr

/-- The scanning loop of `ChunkType::try_from`: first non-letter byte with its
index, scanning left to right starting at index `i`. -/
def findInvalid : Nat → List Nat → Option (Nat × Nat)
  | _, [] => none
  | i, v :: rest => if isLetter v then findInvalid (i + 1) rest else some (i, v)

/-- `ChunkType::try_from(value: [u8; 4])`: reject at the first non-letter
byte, otherwise store the bytes. -/
def ChunkType.tryFrom (bs : List Nat) : Except TryFromChunkTypeError ChunkType :=
  match findInvalid 0 bs with
  | some (i, v) => .error ⟨i, v⟩
  | none => .ok ⟨bs⟩

/-- `ChunkType::as_str` (and `as_slice`): the stored bytes read back as text;
text is modelled by its UTF-8 byte sequence. -/
def ChunkType.asStr (t : ChunkType) : List Nat :=
  t.bytes

/-- `ChunkType::is_critical`: `(self.bytes[0] & 32u8) != 32`. -/
def ChunkType.isCritical (t : ChunkType) : Bool :=
  (t.bytes.getD 0 0) &&& 32 != 32

/-- `ChunkType::is_public`: `(self.bytes[1] & 32u8) != 32`. -/
def ChunkType.isPublic (t : ChunkType) : Bool :=
  (t.bytes.getD 1 0) &&& 32 != 32

/-- `ChunkType::is_reserved_bit_valid`: `(self.bytes[2] & 32u8) != 32`. -/
def ChunkType.isReservedBitValid (t : ChunkType) : Bool :=
  (t.bytes.getD 2 0) &&& 32 != 32

/-- `ChunkType::is_safe_to_copy`: `(self.bytes[3] & 32u8) == 32`. -/
def ChunkType.isSafeToCopy (t : ChunkType) : Bool :=
  (t.bytes.getD 3 0) &&& 32 == 32

/-- `ChunkType::is_valid`: `self.is_reserved_bit_valid()`. -/
def ChunkType.isValid (t : ChunkType) : Bool :=
  t.isReservedBitValid

/-- Well-formedness every Rust `ChunkType` value enjoys by construction:
exactly 4 bytes, all ASCII letters. -/
def ChunkType.WF (t : ChunkType) : Prop :=
  t.bytes.length = 4 ∧ ∀ b ∈ t.bytes, isLetter b = true

instance (t : ChunkType) : Decidable t.WF := by
  unfold ChunkType.WF; infer_instance

/-- `u32::to_be_bytes` on a value already reduced below 2^32. -/
def u32ToBE (n : Nat) : List Nat :=
  [n / 16777216 % 256, n / 65536 % 256, n / 256 % 256, n % 256]

/-- `u32::from_be_bytes` for a 4-byte buffer. -/
def u32FromBE (bs : List Nat) : Nat :=
  bs.foldl (fun acc b => acc * 256 + b) 0

/-- One shift-and-conditionally-xor round of the reflected CRC-32 used by
`crc32fast` (polynomial 0xEDB88320). -/
def crc32Step (c : Nat) : Nat :=
  if c % 2 = 1 then (c / 2) ^^^ 3988292384 else c / 2

/-- Iterate `crc32Step` a given number of times. -/
def crc32Rounds : Nat → Nat → Nat
  | 0, c => c
  | n + 1, c => crc32Rounds n (crc32Step c)

/-- Fold one input byte into the running CRC-32 state. -/
def crc32Update (c b : Nat) : Nat :=
  crc32Rounds 8 (c ^^^ b)

/-- The standard CRC-32 (IEEE) checksum computed by `crc32fast::Hasher`:
state initialised to 0xFFFFFFFF, each byte folded in, final state inverted. -/
def crc32 (data : List Nat) : Nat :=
  (data.foldl crc32Update 4294967295) ^^^ 4294967295

/-- `calculate_crc(chunk_type, data)`: hashing the tag bytes then the data
bytes equals hashing their concatenation. -/
def calculateCrc (chunkType : ChunkType) (data : List Nat) : Nat :=
  crc32 (chunkType.bytes ++ data)

/-- `struct Chunk { len, chunk_type, data, crc }`. -/
structure Chunk where
  len : Nat
  chunkType : ChunkType
  data : List Nat
  crc : Nat
deriving DecidableEq, Repr

/-- `Chunk::new`: `u32::try_from(data.len()).unwrap()` aborts on a payload
not fitting `u32`; that failure is modelled as `none`. -/
def Chunk.new (chunkType : ChunkType) (data : List Nat) : Option Chunk :=
  if data.length < 4294967296 then
    some { len := data.length, chunkType := chunkType, data := data,
           crc := calculateCrc chunkType data }
  else none

/-- `Chunk::as_bytes`: big-endian length ++ tag bytes ++ payload ++
big-endian checksum. -/
def Chunk.asBytes (c : Chunk) : List Nat :=
  u32ToBE c.len ++ c.chunkType.bytes ++ c.data ++ u32ToBE c.crc

/-- `enum TryFromBytesErrorKind` of `Chunk::try_from`; the wrapped
`io::Error` of `NotEnoughBytes` carries no data relevant to the model. -/
inductive TryFromBytesErrorKind where
  | chunkTypeErr (err : TryFromChunkTypeError)
  | corruptCrc (calculated expected : Nat)
  | notEnoughBytes
deriving DecidableEq, Repr

/-- `Read::read_exact` on an in-memory buffer: take exactly `n` bytes and
return them with the remaining buffer, or fail. -/
def readExact (n : Nat) (bs : List Nat) : Option (List Nat × List Nat) :=
  if n ≤ bs.length then some (bs.take n, bs.drop n) else none

/-- `Chunk::try_from(&[u8])` with the reader position made explicit: on
success the parsed chunk together with the bytes the `BufReader` has not
consumed.  Mirrors the source exactly, including the early return for
`len == 0` that skips reading the checksum field. -/
def Chunk.parseFrom (bytes : List Nat) :
    Except TryFromBytesErrorKind (Chunk × List Nat) :=
  match readExact 4 bytes with
  | none => .error .notEnoughBytes
  | some (lenBytes, rest1) =>
    match readExact 4 rest1 with
    | none => .error .notEnoughBytes
    | some (tagBytes, rest2) =>
      match ChunkType.tryFrom tagBytes with
      | .error e => .error (.chunkTypeErr e)
      | .ok chunkType =>
        if u32FromBE lenBytes = 0 then
          .ok ({ len := u32FromBE lenBytes, chunkType := chunkType, data := [],
                 crc := calculateCrc chunkType [] }, rest2)
        else
          match readExact (u32FromBE lenBytes) rest2 with
          | none => .error .notEnoughBytes
          | some (data, rest3) =>
            match readExact 4 rest3 with
            | none => .error .notEnoughBytes
            | some (crcBytes, rest4) =>
              if calculateCrc chunkType data ≠ u32FromBE crcBytes then
                .error (.corruptCrc (calculateCrc chunkType data) (u32FromBE crcBytes))
              else
                .ok ({ len := u32FromBE lenBytes, chunkType := chunkType,
                       data := data,
                       crc := calculateCrc chunkType data }, rest4)

/-- `Chunk::try_from(&[u8])` as written: only the chunk is returned. -/
def Chunk.tryFrom (bytes : List Nat) : Except TryFromBytesErrorKind Chunk :=
  (Chunk.parseFrom bytes).map Prod.fst

/-- Well-formedness every Rust `Chunk` value enjoys by construction (both by
`Chunk::new` and by a successful `Chunk::try_from`): declared length equals
the payload byte count and fits `u32`, payload entries are bytes, the tag is
well formed, and the checksum is the CRC over tag bytes ++ payload bytes. -/
def Chunk.WF (c : Chunk) : Prop :=
  c.len = c.data.length ∧ c.data.length < 4294967296 ∧ c.chunkType.WF ∧
    (∀ b ∈ c.data, b < 256) ∧ c.crc = calculateCrc c.chunkType c.data

instance (c : Chunk) : Decidable c.WF := by
  unfold Chunk.WF; infer_instance

/-! ### The container

The repository declares `mod png` (src/main.rs) and `commands.rs` calls
`Png::try_from`, `Png::as_bytes`, `append_chunk`, `chunk_by_type` and
`remove_first_chunk`, but the file png.rs itself is not among the sources;
the container below is therefore modelled from the specification. -/

/-- Modelled from the spec: the fixed 8-byte signature preceding the Record
sequence (the PNG magic constant, visible in the main.rs test buffer). -/
def pngSignature : List Nat := [137, 80, 78, 71, 13, 10, 26, 10]

/-- Modelled from the spec: a Container is an ordered sequence of Records
behind the fixed signature (`Png` of the missing png.rs). -/
structure Png where
  chunks : List Chunk
deriving DecidableEq, Repr

/-- Modelled from the spec: the error surface of `Png::try_from` — a bad
leading signature, or the first propagated Record-parse error. -/
inductive TryFromSliceError where
  | badSignature
  | chunk (err : TryFromBytesErrorKind)
deriving DecidableEq, Repr

/-- Modelled from the spec: parse Records back to back until none remain.
Each serialized Record occupies `12 + length` bytes (spec section 3); a
buffer ending mid-Record fails with the truncation error, and each Record's
bytes are handed to `Chunk::try_from` (src/chunk.rs).  The `fuel` argument
only bounds the recursion; each step consumes at least 12 bytes, so any
fuel of at least the buffer length gives the loop's semantics. -/
def parseChunksGo (fuel : Nat) (bytes : List Nat) :
    Except TryFromBytesErrorKind (List Chunk) :=
  match fuel with
  | 0 => if bytes.length = 0 then .ok [] else .error .notEnoughBytes
  | fuel + 1 =>
    if bytes.length = 0 then .ok []
    else if bytes.length < 4 then .error .notEnoughBytes
    else
      let len := u32FromBE (bytes.take 4)
      if bytes.length < 12 + len then .error .notEnoughBytes
      else
        match Chunk.tryFrom (bytes.take (12 + len)) with
        | .error e => .error e
        | .ok r =>
          match parseChunksGo fuel (bytes.drop (12 + len)) with
          | .error e => .error e
          | .ok rs => .ok (r :: rs)

/-- Modelled from the spec: the Record-sequence loop run with enough fuel. -/
def parseChunksFrom (bytes : List Nat) : Except TryFromBytesErrorKind (List Chunk) :=
  parseChunksGo bytes.length bytes

/-- Modelled from the spec: `Png::try_from(&[u8])` — reject the buffer unless
its first 8 bytes equal the signature, then parse the Record sequence. -/
def Png.tryFrom (bytes : List Nat) : Except TryFromSliceError Png :=
  if bytes.take 8 = pngSignature then
    match parseChunksFrom (bytes.drop 8) with
    | .ok rs => .ok ⟨rs⟩
    | .error e => .error (.chunk e)
  else .error .badSignature

/-- Modelled from the spec: `Png::as_bytes` — the signature followed by each
Record's serialization in sequence order. -/
def Png.asBytes (p : Png) : List Nat :=
  pngSignature ++ (p.chunks.map Chunk.asBytes).flatten


-- Equality on parse results is decidable, so concrete runs of the parsers
-- can be checked by evaluation.
deriving instance DecidableEq for Except

/-- The chunk-type tag with text `"RuSt"` used throughout the tests in
src/chunk.rs and src/chunk_type.rs. -/
def rustTag : ChunkType := ⟨[82, 117, 83, 116]⟩

/-- ASCII bytes of `"This is where your secret message will be!"`, the test
payload of src/chunk.rs. -/
def secretMessage : List Nat :=
  [84, 104, 105, 115, 32, 105, 115, 32, 119, 104, 101, 114, 101, 32, 121,
   111, 117, 114, 32, 115, 101, 99, 114, 101, 116, 32, 109, 101, 115, 115,
   97, 103, 101, 32, 119, 105, 108, 108, 32, 98, 101, 33]

/-- The record built from `rustTag` and `secretMessage` (test fixture of
src/chunk.rs, checksum 2882656334). -/
def rustChunk : Chunk := ⟨42, rustTag, secretMessage, 2882656334⟩

/-- A record with tag `"RuSt"` and empty payload; 3565422908 is the CRC-32
of the tag bytes alone. -/
def zeroChunk : Chunk := ⟨0, rustTag, [], 3565422908⟩

/-- A record with tag `"RuSt"` and the 5-byte payload `"hello"`. -/
def helloChunk : Chunk :=
  ⟨5, rustTag, [104, 101, 108, 108, 111],
   calculateCrc rustTag [104, 101, 108, 108, 111]⟩

/-- A one-record container used to witness the container round trip. -/
def pngSample : Png := ⟨[helloChunk]⟩

/-! ### Basic facts about the byte-level helpers -/

theorem length_u32ToBE (n : Nat) : (u32ToBE n).length = 4 := rfl

theorem u32FromBE_u32ToBE {n : Nat} (h : n < 4294967296) :
    u32FromBE (u32ToBE n) = n := by
  simp only [u32ToBE, u32FromBE, List.foldl_cons, List.foldl_nil]
  omega

theorem readExact_left {l r : List Nat} {n : Nat} (h : l.length = n) :
    readExact n (l ++ r) = some (l, r) := by
  unfold readExact
  rw [if_pos (by simp [← h]), List.take_left' h, List.drop_left' h]

theorem readExact_none {bs : List Nat} {n : Nat} (h : bs.length < n) :
    readExact n bs = none := by
  unfold readExact
  rw [if_neg (by omega)]

theorem findInvalid_eq_none {bs : List Nat} (h : ∀ b ∈ bs, isLetter b = true) :
    ∀ i, findInvalid i bs = none := by
  induction bs with
  | nil => intro i; rfl
  | cons x xs ih =>
    intro i
    have hx : isLetter x = true := h x (List.mem_cons_self x xs)
    simp only [findInvalid, hx, if_true]
    exact ih (fun b hb => h b (List.mem_cons_of_mem x hb)) (i + 1)

theorem ChunkType.tryFrom_of_WF {t : ChunkType} (h : t.WF) :
    ChunkType.tryFrom t.bytes = .ok t := by
  unfold ChunkType.tryFrom
  rw [findInvalid_eq_none h.2 0]

theorem isLetter_lt_256 {b : Nat} (h : isLetter b = true) : b < 256 := by
  simp only [isLetter, Bool.or_eq_true, Bool.and_eq_true, decide_eq_true_eq] at h
  omega

/-! ### The CRC state never leaves the 32-bit range on byte input -/

theorem crc32Step_lt {c : Nat} (h : c < 4294967296) :
    crc32Step c < 4294967296 := by
  unfold crc32Step
  split
  · have h1 : c / 2 < 4294967296 := by omega
    have h2 : (3988292384 : Nat) < 4294967296 := by norm_num
    calc c / 2 ^^^ 3988292384 < 2 ^ 32 := Nat.xor_lt_two_pow (by omega) (by norm_num)
      _ = 4294967296 := by norm_num
  · omega

theorem crc32Rounds_lt {c : Nat} (h : c < 4294967296) (n : Nat) :
    crc32Rounds n c < 4294967296 := by
  induction n generalizing c with
  | zero => exact h
  | succ m ih => exact ih (crc32Step_lt h)

theorem crc32Update_lt {c b : Nat} (hc : c < 4294967296) (hb : b < 256) :
    crc32Update c b < 4294967296 := by
  unfold crc32Update
  refine crc32Rounds_lt ?_ 8
  calc c ^^^ b < 2 ^ 32 := Nat.xor_lt_two_pow (by omega) (by omega)
    _ = 4294967296 := by norm_num

theorem crc32_foldl_lt {data : List Nat} (h : ∀ b ∈ data, b < 256) :
    ∀ {c : Nat}, c < 4294967296 → data.foldl crc32Update c < 4294967296 := by
  induction data with
  | nil => intro c hc; exact hc
  | cons x xs ih =>
    intro c hc
    simp only [List.foldl_cons]
    exact ih (fun b hb => h b (List.mem_cons_of_mem x hb))
      (crc32Update_lt hc (h x (List.mem_cons_self x xs)))

theorem crc32_lt {data : List Nat} (h : ∀ b ∈ data, b < 256) :
    crc32 data < 4294967296 := by
  unfold crc32
  calc (data.foldl crc32Update 4294967295) ^^^ 4294967295 < 2 ^ 32 :=
        Nat.xor_lt_two_pow
          (by have := crc32_foldl_lt h (c := 4294967295) (by norm_num); omega)
          (by norm_num)
    _ = 4294967296 := by norm_num

theorem calculateCrc_lt {t : ChunkType} {data : List Nat} (ht : t.WF)
    (hd : ∀ b ∈ data, b < 256) : calculateCrc t data < 4294967296 := by
  unfold calculateCrc
  refine crc32_lt ?_
  intro b hb
  rcases List.mem_append.mp hb with h | h
  · exact isLetter_lt_256 (ht.2 b h)
  · exact hd b h

/-! ### How `Chunk::try_from` behaves on structured input -/

theorem Chunk.parseFrom_zero {t : ChunkType} (ht : t.WF) (rest : List Nat) :
    Chunk.parseFrom (u32ToBE 0 ++ t.bytes ++ rest) =
      .ok ({ len := 0, chunkType := t, data := [],
             crc := calculateCrc t [] }, rest) := by
  have h0 : u32FromBE (u32ToBE 0) = 0 := u32FromBE_u32ToBE (by norm_num)
  simp only [List.append_assoc, Chunk.parseFrom,
    readExact_left (length_u32ToBE 0), readExact_left ht.1,
    ChunkType.tryFrom_of_WF ht, h0, if_true]

theorem Chunk.parseFrom_pos {t : ChunkType} {p : List Nat} {c : Nat}
    (ht : t.WF) (hp : p ≠ []) (hlen : p.length < 4294967296)
    (hc : c < 4294967296) (rest : List Nat) :
    Chunk.parseFrom (u32ToBE p.length ++ t.bytes ++ p ++ u32ToBE c ++ rest) =
      if calculateCrc t p = c then
        .ok ({ len := p.length, chunkType := t, data := p, crc := c }, rest)
      else
        .error (.corruptCrc (calculateCrc t p) c) := by
  have hne : p.length ≠ 0 := by simpa using hp
  by_cases hcc : calculateCrc t p = c
  · simp only [List.append_assoc, Chunk.parseFrom,
      readExact_left (length_u32ToBE p.length), readExact_left ht.1,
      ChunkType.tryFrom_of_WF ht, u32FromBE_u32ToBE hlen, if_neg hne,
      readExact_left (rfl : p.length = p.length),
      readExact_left (length_u32ToBE c), u32FromBE_u32ToBE hc, hcc]
    simp
  · simp only [List.append_assoc, Chunk.parseFrom,
      readExact_left (length_u32ToBE p.length), readExact_left ht.1,
      ChunkType.tryFrom_of_WF ht, u32FromBE_u32ToBE hlen, if_neg hne,
      readExact_left (rfl : p.length = p.length),
      readExact_left (length_u32ToBE c), u32FromBE_u32ToBE hc]
    simp [hcc]

theorem Chunk.parseFrom_short {bytes : List Nat} (h : bytes.length < 4) :
    Chunk.parseFrom bytes = .error .notEnoughBytes := by
  simp only [Chunk.parseFrom, readExact_none h]

theorem Chunk.parseFrom_tag_short {n : Nat} {S : List Nat} (h : S.length < 4) :
    Chunk.parseFrom (u32ToBE n ++ S) = .error .notEnoughBytes := by
  simp only [Chunk.parseFrom, readExact_left (length_u32ToBE n),
    readExact_none h]

theorem Chunk.parseFrom_data_short {t : ChunkType} {n : Nat} {S : List Nat}
    (ht : t.WF) (hn : n ≠ 0) (hn32 : n < 4294967296) (hS : S.length < n) :
    Chunk.parseFrom (u32ToBE n ++ t.bytes ++ S) = .error .notEnoughBytes := by
  simp only [List.append_assoc, Chunk.parseFrom,
    readExact_left (length_u32ToBE n), readExact_left ht.1,
    ChunkType.tryFrom_of_WF ht, u32FromBE_u32ToBE hn32, if_neg hn,
    readExact_none hS]

theorem Chunk.parseFrom_crc_short {t : ChunkType} {p S : List Nat}
    (ht : t.WF) (hp : p ≠ []) (hlen : p.length < 4294967296)
    (hS : S.length < 4) :
    Chunk.parseFrom (u32ToBE p.length ++ t.bytes ++ p ++ S) =
      .error .notEnoughBytes := by
  have hne : p.length ≠ 0 := by simpa using hp
  simp only [List.append_assoc, Chunk.parseFrom,
    readExact_left (length_u32ToBE p.length), readExact_left ht.1,
    ChunkType.tryFrom_of_WF ht, u32FromBE_u32ToBE hlen, if_neg hne,
    readExact_left (rfl : p.length = p.length), readExact_none hS]

/-! ### Round trip of well-formed chunks and containers -/

theorem Chunk.length_asBytes {c : Chunk} (h : c.WF) :
    c.asBytes.length = 12 + c.len := by
  have h1 := h.1
  simp only [Chunk.asBytes, List.length_append, length_u32ToBE, h.2.2.1.1]
  omega

theorem Chunk.tryFrom_asBytes : ∀ {c : Chunk}, c.WF →
    Chunk.tryFrom c.asBytes = .ok c := by
  rintro ⟨len, t, data, crc⟩ ⟨h1, h2, h3, h4, h5⟩
  simp only at h1 h2 h4 h5
  subst h1; subst h5
  unfold Chunk.tryFrom Chunk.asBytes
  by_cases hd : data = []
  · subst hd
    rw [show (u32ToBE ([] : List Nat).length ++ t.bytes ++ ([] : List Nat) ++
          u32ToBE (calculateCrc t [])) =
        u32ToBE 0 ++ t.bytes ++ u32ToBE (calculateCrc t []) by simp]
    rw [Chunk.parseFrom_zero h3]
    rfl
  · have hcrc : calculateCrc t data < 4294967296 := calculateCrc_lt h3 h4
    have := Chunk.parseFrom_pos (c := calculateCrc t data) h3 hd h2 hcrc []
    rw [List.append_nil] at this
    simp only [this, if_pos rfl]
    rfl

theorem parseChunksGo_flatten :
    ∀ (cs : List Chunk) (fuel : Nat), (∀ x ∈ cs, x.WF) →
      ((cs.map Chunk.asBytes).flatten).length ≤ fuel →
      parseChunksGo fuel ((cs.map Chunk.asBytes).flatten) = .ok cs := by
  intro cs
  induction cs with
  | nil =>
    intro fuel _ _
    cases fuel <;> rfl
  | cons c rest ih =>
    intro fuel h hfuel
    have hc : c.WF := h c (List.mem_cons_self c rest)
    have hrest : ∀ x ∈ rest, x.WF := fun x hx => h x (List.mem_cons_of_mem c hx)
    have hlen := Chunk.length_asBytes hc
    simp only [List.map_cons, List.flatten_cons] at hfuel ⊢
    have hLlen : (c.asBytes ++ (rest.map Chunk.asBytes).flatten).length =
        12 + c.len + ((rest.map Chunk.asBytes).flatten).length := by
      simp only [List.length_append, hlen]
    cases fuel with
    | zero => omega
    | succ f =>
      have htake4 :
          u32FromBE ((c.asBytes ++ (rest.map Chunk.asBytes).flatten).take 4) =
            c.len := by
        have hshape : c.asBytes ++ (rest.map Chunk.asBytes).flatten =
            u32ToBE c.len ++ (c.chunkType.bytes ++ (c.data ++ (u32ToBE c.crc ++
              (rest.map Chunk.asBytes).flatten))) := by
          simp [Chunk.asBytes]
        rw [hshape, List.take_left' (length_u32ToBE c.len)]
        exact u32FromBE_u32ToBE (by have h1 := hc.1; have h2 := hc.2.1; omega)
      simp only [parseChunksGo, htake4]
      rw [if_neg (by omega), if_neg (by omega), if_neg (by omega),
        List.take_left' hlen, Chunk.tryFrom_asBytes hc,
        List.drop_left' hlen, ih f hrest (by omega)]

theorem parseChunksFrom_flatten {cs : List Chunk} (h : ∀ x ∈ cs, x.WF) :
    parseChunksFrom ((cs.map Chunk.asBytes).flatten) = .ok cs :=
  parseChunksGo_flatten cs _ h (Nat.le_refl _)

/-! ### Inversion of successful parses -/

theorem readExact_ok {n : Nat} {bs xs rest : List Nat}
    (h : readExact n bs = some (xs, rest)) :
    xs.length = n ∧ xs = bs.take n ∧ rest = bs.drop n := by
  unfold readExact at h
  split at h
  · next hle =>
    simp only [Option.some.injEq, Prod.mk.injEq] at h
    obtain ⟨h1, h2⟩ := h
    subst h1; subst h2
    exact ⟨List.length_take_of_le hle, rfl, rfl⟩
  · exact absurd h (by simp)

theorem Chunk.tryFrom_ok {bytes : List Nat} {r : Chunk}
    (h : Chunk.tryFrom bytes = .ok r) :
    ∃ rest, Chunk.parseFrom bytes = .ok (r, rest) := by
  unfold Chunk.tryFrom at h
  cases hp : Chunk.parseFrom bytes with
  | error e => rw [hp] at h; exact absurd h (by simp [Except.map])
  | ok pr =>
    obtain ⟨r', rest⟩ := pr
    rw [hp] at h
    simp only [Except.map, Except.ok.injEq] at h
    subst h
    exact ⟨rest, rfl⟩

theorem Chunk.parseFrom_inv {bytes : List Nat} {r : Chunk} {rest : List Nat}
    (h : Chunk.parseFrom bytes = .ok (r, rest)) :
    r.len = r.data.length ∧ r.crc = calculateCrc r.chunkType r.data := by
  unfold Chunk.parseFrom at h
  split at h
  · exact absurd h (by simp)
  next lenBytes rest1 heq1 =>
    split at h
    · exact absurd h (by simp)
    next tagBytes rest2 heq2 =>
      split at h
      · exact absurd h (by simp)
      next ct heq3 =>
        split at h
        · next hlen0 =>
          simp only [Except.ok.injEq, Prod.mk.injEq] at h
          obtain ⟨hr, -⟩ := h
          subst hr
          exact ⟨by simpa using hlen0, rfl⟩
        · next hlen0 =>
          split at h
          · exact absurd h (by simp)
          next data rest3 heq4 =>
            split at h
            · exact absurd h (by simp)
            next crcBytes rest4 heq5 =>
              split at h
              · exact absurd h (by simp)
              next hcrc =>
                simp only [Except.ok.injEq, Prod.mk.injEq] at h
                obtain ⟨hr, -⟩ := h
                subst hr
                exact ⟨(readExact_ok heq4).1.symm, rfl⟩

/-! ### Letters and the case bit -/

theorem isLetter_lt_123 {b : Nat} (h : isLetter b = true) : b < 123 := by
  simp only [isLetter, Bool.or_eq_true, Bool.and_eq_true, decide_eq_true_eq] at h
  omega

theorem letterCase_spec : ∀ y, y < 123 → isLetter y = true →
    (((y &&& 32 != 32) = true) ↔ (65 ≤ y ∧ y ≤ 90)) ∧
    (((y &&& 32 == 32) = true) ↔ (97 ≤ y ∧ y ≤ 122)) := by decide

theorem bytes_eq_four {l : List Nat} (h : l.length = 4) :
    ∃ a b c d, l = [a, b, c, d] := by
  cases l with
  | nil => simp at h
  | cons a l1 =>
    cases l1 with
    | nil => simp at h
    | cons b l2 =>
      cases l2 with
      | nil => simp at h
      | cons c l3 =>
        cases l3 with
        | nil => simp at h
        | cons d l4 =>
          cases l4 with
          | nil => exact ⟨a, b, c, d, rfl⟩
          | cons e l5 => simp at h


/-! ### The claims -/

/-- C1 (amended): parsing the serialization of any Container of well-formed
Records reproduces the Container with the identical ordered Record sequence;
consequently `serialize(parse(b)) = b` for every buffer in the image of
`serialize`.  As originally stated over every accepted buffer the law fails,
because the checksum field of a zero-length record is never read. -/
theorem claim_C1 (p : Png) (h : ∀ x ∈ p.chunks, x.WF) :
    Png.tryFrom p.asBytes = .ok p := by
  unfold Png.tryFrom Png.asBytes
  have h8 : pngSignature.length = 8 := rfl
  rw [if_pos (List.take_left' h8), List.drop_left' h8,
    parseChunksFrom_flatten h]

/-- C1 counterexample: a buffer holding one zero-length record whose stored
checksum field (0) differs from the tag CRC is accepted by `Png::try_from`,
but re-serializing emits the recomputed CRC, so the bytes differ. -/
theorem claim_C1_counterexample :
    Png.tryFrom (pngSignature ++ [0, 0, 0, 0, 82, 117, 83, 116, 0, 0, 0, 0]) =
      .ok ⟨[zeroChunk]⟩ ∧
    Png.asBytes ⟨[zeroChunk]⟩ ≠
      pngSignature ++ [0, 0, 0, 0, 82, 117, 83, 116, 0, 0, 0, 0] := by
  decide

/-- C1 witness: the round trip at a concrete one-record container. -/
theorem claim_C1_witness :
    (∀ x ∈ pngSample.chunks, x.WF) ∧
      Png.tryFrom pngSample.asBytes = .ok pngSample :=
  ⟨by decide, claim_C1 pngSample (by decide)⟩

/-- C2: parsing the serialization of `Record.create(t, p)` succeeds and
returns a Record equal in all four fields. -/
theorem claim_C2 (t : ChunkType) (p : List Nat) (r : Chunk) (ht : t.WF)
    (hp : ∀ b ∈ p, b < 256) (hnew : Chunk.new t p = some r) :
    Chunk.tryFrom r.asBytes = .ok r := by
  unfold Chunk.new at hnew
  split at hnew
  · next hlen =>
    simp only [Option.some.injEq] at hnew
    subst hnew
    exact Chunk.tryFrom_asBytes ⟨rfl, hlen, ht, hp, rfl⟩
  · exact absurd hnew (by simp)

/-- C2 witness: the serialization round trip at the test fixture record. -/
theorem claim_C2_witness :
    rustTag.WF ∧ (∀ b ∈ secretMessage, b < 256) ∧
      Chunk.new rustTag secretMessage = some rustChunk ∧
      Chunk.tryFrom rustChunk.asBytes = .ok rustChunk :=
  ⟨by decide, by decide, by decide,
   claim_C2 rustTag secretMessage rustChunk (by decide) (by decide) (by decide)⟩

/-- C3 (amended): for a serialized Record with NONZERO payload, a trailing
checksum field that differs from the CRC over tag ++ payload makes
`Record.parse` fail with `ChecksumMismatch{calculated, expected}`; in
particular any single-bit flip of such a record's checksum field does.  For
zero-length records the claim fails: their checksum field is never read. -/
theorem claim_C3 (t : ChunkType) (p : List Nat) (c : Nat) (ht : t.WF)
    (hp : p ≠ []) (hlen : p.length < 4294967296) (hc : c < 4294967296)
    (hne : c ≠ calculateCrc t p) :
    Chunk.tryFrom (u32ToBE p.length ++ t.bytes ++ p ++ u32ToBE c) =
      .error (.corruptCrc (calculateCrc t p) c) := by
  have h := Chunk.parseFrom_pos ht hp hlen hc []
  rw [List.append_nil] at h
  unfold Chunk.tryFrom
  rw [h, if_neg (fun hh => hne hh.symm)]
  rfl

/-- C3 counterexample: the serialization of the zero-payload record with tag
`"RuSt"` ends in checksum bytes [212, 132, 9, 60]; flipping the lowest bit
of the last byte (60 to 61) still parses successfully instead of failing
with `ChecksumMismatch`. -/
theorem claim_C3_counterexample :
    zeroChunk.asBytes = [0, 0, 0, 0, 82, 117, 83, 116, 212, 132, 9, 60] ∧
    Chunk.tryFrom [0, 0, 0, 0, 82, 117, 83, 116, 212, 132, 9, 61] =
      .ok zeroChunk := by
  decide

/-- C3 witness: the corrupted-checksum fixture of src/chunk.rs (expected
2882656334, stored 2882656333) is rejected with both values reported. -/
theorem claim_C3_witness :
    Chunk.tryFrom (u32ToBE secretMessage.length ++ rustTag.bytes ++
        secretMessage ++ u32ToBE 2882656333) =
      .error (.corruptCrc (calculateCrc rustTag secretMessage) 2882656333) :=
  claim_C3 rustTag secretMessage 2882656333 (by decide) (by decide)
    (by decide) (by decide) (by decide)

/-- C4 (amended): truncating a serialized Record strictly before its full
`12 + length` bytes makes `Record.parse` fail with `Truncated`, for every
Record with nonzero payload at every truncation point, and for zero-payload
Records at every truncation point before byte 8.  A zero-payload Record's
prefixes of 8 to 11 bytes parse successfully instead, because the checksum
field of a zero-length record is never read. -/
theorem claim_C4 (r : Chunk) (k : Nat) (hr : r.WF)
    (hk : k < 12 + r.data.length) (hcase : r.data ≠ [] ∨ k < 8) :
    Chunk.tryFrom (r.asBytes.take k) = .error .notEnoughBytes := by
  obtain ⟨len, t, data, crc⟩ := r
  obtain ⟨h1, h2, h3, h4, h5⟩ := hr
  simp only at h1 h2 h3 h4 h5 hk hcase ⊢
  subst h1
  have hT : t.bytes.length = 4 := h3.1
  simp only [Chunk.asBytes, List.append_assoc]
  by_cases hk4 : k < 4
  · have hshort :
        ((u32ToBE data.length ++ (t.bytes ++ (data ++ u32ToBE crc))).take
          k).length < 4 := by
      simp only [List.length_take, List.length_append, length_u32ToBE, hT]
      omega
    simp [Chunk.tryFrom, Except.map, Chunk.parseFrom_short hshort]
  · have hsplit1 :
        (u32ToBE data.length ++ (t.bytes ++ (data ++ u32ToBE crc))).take k =
          u32ToBE data.length ++
            (t.bytes ++ (data ++ u32ToBE crc)).take (k - 4) := by
      rw [List.take_append_eq_append_take,
        List.take_of_length_le (by rw [length_u32ToBE]; omega), length_u32ToBE]
    rw [hsplit1]
    by_cases hk8 : k < 8
    · have hS : ((t.bytes ++ (data ++ u32ToBE crc)).take (k - 4)).length < 4 := by
        simp only [List.length_take, List.length_append, length_u32ToBE, hT]
        omega
      simp [Chunk.tryFrom, Except.map, Chunk.parseFrom_tag_short hS]
    · have hdata : data ≠ [] := hcase.resolve_right (by omega)
      have hlen0 : data.length ≠ 0 := by simpa using hdata
      have hsplit2 : (t.bytes ++ (data ++ u32ToBE crc)).take (k - 4) =
          t.bytes ++ (data ++ u32ToBE crc).take (k - 8) := by
        rw [List.take_append_eq_append_take,
          List.take_of_length_le (by rw [hT]; omega), hT,
          show k - 4 - 4 = k - 8 by omega]
      rw [hsplit2]
      by_cases hkl : k - 8 < data.length
      · have hS : ((data ++ u32ToBE crc).take (k - 8)).length < data.length := by
          simp only [List.length_take, List.length_append, length_u32ToBE]
          omega
        rw [show u32ToBE data.length ++
              (t.bytes ++ (data ++ u32ToBE crc).take (k - 8)) =
            u32ToBE data.length ++ t.bytes ++ (data ++ u32ToBE crc).take (k - 8)
          by simp [List.append_assoc]]
        unfold Chunk.tryFrom
        rw [Chunk.parseFrom_data_short h3 hlen0 h2 hS]
        rfl
      · have hsplit3 : (data ++ u32ToBE crc).take (k - 8) =
            data ++ (u32ToBE crc).take (k - 8 - data.length) := by
          rw [List.take_append_eq_append_take,
            List.take_of_length_le (by omega)]
        rw [hsplit3]
        have hS : ((u32ToBE crc).take (k - 8 - data.length)).length < 4 := by
          simp only [List.length_take, length_u32ToBE]
          omega
        rw [show u32ToBE data.length ++
              (t.bytes ++ (data ++ (u32ToBE crc).take (k - 8 - data.length))) =
            u32ToBE data.length ++ t.bytes ++ data ++
              (u32ToBE crc).take (k - 8 - data.length)
          by simp [List.append_assoc]]
        unfold Chunk.tryFrom
        rw [Chunk.parseFrom_crc_short h3 hdata h2 hS]
        rfl

/-- C4 counterexample: the 8-byte strict prefix of the 12-byte serialization
of the zero-payload record with tag `"RuSt"` parses successfully instead of
failing with `Truncated`. -/
theorem claim_C4_counterexample :
    Chunk.tryFrom (zeroChunk.asBytes.take 8) = .ok zeroChunk := by
  decide

/-- C4 witness: truncating the `"hello"` record at 10 of its 17 bytes fails
with `Truncated`. -/
theorem claim_C4_witness :
    helloChunk.WF ∧
      Chunk.tryFrom (helloChunk.asBytes.take 10) = .error .notEnoughBytes :=
  ⟨by decide, claim_C4 helloChunk 10 (by decide) (by decide)
    (Or.inl (by decide))⟩

/-- C5: every Record built by `Chunk::new` and every Record returned by a
successful `Chunk::try_from` has its declared length equal to the payload
byte count and its checksum equal to the CRC over tag bytes ++ payload bytes
(the length and checksum fields take no part in that computation). -/
theorem claim_C5 :
    (∀ (t : ChunkType) (p : List Nat) (r : Chunk), Chunk.new t p = some r →
       r.len = r.data.length ∧ r.crc = calculateCrc r.chunkType r.data) ∧
    (∀ (bytes : List Nat) (r : Chunk), Chunk.tryFrom bytes = .ok r →
       r.len = r.data.length ∧ r.crc = calculateCrc r.chunkType r.data) := by
  constructor
  · intro t p r h
    unfold Chunk.new at h
    split at h
    · simp only [Option.some.injEq] at h
      subst h
      exact ⟨rfl, rfl⟩
    · exact absurd h (by simp)
  · intro bytes r h
    obtain ⟨rest, hp⟩ := Chunk.tryFrom_ok h
    exact Chunk.parseFrom_inv hp

/-- C5 witness: the invariant at a freshly created record and at a record
returned by a concrete successful parse. -/
theorem claim_C5_witness :
    (rustChunk.len = rustChunk.data.length ∧
      rustChunk.crc = calculateCrc rustChunk.chunkType rustChunk.data) ∧
    (zeroChunk.len = zeroChunk.data.length ∧
      zeroChunk.crc = calculateCrc zeroChunk.chunkType zeroChunk.data) :=
  ⟨claim_C5.1 rustTag secretMessage rustChunk (by decide),
   claim_C5.2 zeroChunk.asBytes zeroChunk (by decide)⟩

/-- C6: on a 4-byte sequence, `ChunkType::try_from` fails at the first
non-letter byte scanning left to right, reporting its index and value, and
succeeds exactly when all four bytes are ASCII letters, in which case the
stored text is the original 4 bytes. -/
theorem claim_C6 (a b c d : Nat) :
    ChunkType.tryFrom [a, b, c, d] =
      (if isLetter a = false then .error ⟨0, a⟩
       else if isLetter b = false then .error ⟨1, b⟩
       else if isLetter c = false then .error ⟨2, c⟩
       else if isLetter d = false then .error ⟨3, d⟩
       else .ok ⟨[a, b, c, d]⟩) ∧
    (ChunkType.mk [a, b, c, d]).asStr = [a, b, c, d] := by
  refine ⟨?_, rfl⟩
  by_cases ha : isLetter a <;> by_cases hb : isLetter b <;>
    by_cases hc : isLetter c <;> by_cases hd : isLetter d <;>
    simp [ChunkType.tryFrom, findInvalid, ha, hb, hc, hd]

/-- C6 witness: the cascade at the legal tag bytes of `"RuSt"` and the
recovered text. -/
theorem claim_C6_witness :
    ChunkType.tryFrom [82, 117, 83, 116] =
      (if isLetter 82 = false then .error ⟨0, 82⟩
       else if isLetter 117 = false then .error ⟨1, 117⟩
       else if isLetter 83 = false then .error ⟨2, 83⟩
       else if isLetter 116 = false then .error ⟨3, 116⟩
       else .ok ⟨[82, 117, 83, 116]⟩) ∧
    (ChunkType.mk [82, 117, 83, 116]).asStr = [82, 117, 83, 116] :=
  claim_C6 82 117 83 116

/-- C7: for every well-formed tag, criticality, publicness and
reserved-validity hold exactly when bytes 0, 1, 2 are uppercase, safe-to-copy
holds exactly when byte 3 is lowercase, and validity equals
reserved-validity. -/
theorem claim_C7 (t : ChunkType) (h : t.WF) :
    (t.isCritical = true ↔
      65 ≤ t.bytes.getD 0 0 ∧ t.bytes.getD 0 0 ≤ 90) ∧
    (t.isPublic = true ↔
      65 ≤ t.bytes.getD 1 0 ∧ t.bytes.getD 1 0 ≤ 90) ∧
    (t.isReservedBitValid = true ↔
      65 ≤ t.bytes.getD 2 0 ∧ t.bytes.getD 2 0 ≤ 90) ∧
    (t.isSafeToCopy = true ↔
      97 ≤ t.bytes.getD 3 0 ∧ t.bytes.getD 3 0 ≤ 122) ∧
    t.isValid = t.isReservedBitValid := by
  obtain ⟨bs⟩ := t
  obtain ⟨a, b, c, d, rfl⟩ := bytes_eq_four h.1
  have hla : isLetter a = true := h.2 a (by simp)
  have hlb : isLetter b = true := h.2 b (by simp)
  have hlc : isLetter c = true := h.2 c (by simp)
  have hld : isLetter d = true := h.2 d (by simp)
  refine ⟨?_, ?_, ?_, ?_, rfl⟩
  · simpa [ChunkType.isCritical] using
      (letterCase_spec a (isLetter_lt_123 hla) hla).1
  · simpa [ChunkType.isPublic] using
      (letterCase_spec b (isLetter_lt_123 hlb) hlb).1
  · simpa [ChunkType.isReservedBitValid] using
      (letterCase_spec c (isLetter_lt_123 hlc) hlc).1
  · simpa [ChunkType.isSafeToCopy] using
      (letterCase_spec d (isLetter_lt_123 hld) hld).2

/-- C7 witness: the property bits of the tag `"RuSt"`. -/
theorem claim_C7_witness :
    (rustTag.isCritical = true ↔
      65 ≤ rustTag.bytes.getD 0 0 ∧ rustTag.bytes.getD 0 0 ≤ 90) ∧
    (rustTag.isPublic = true ↔
      65 ≤ rustTag.bytes.getD 1 0 ∧ rustTag.bytes.getD 1 0 ≤ 90) ∧
    (rustTag.isReservedBitValid = true ↔
      65 ≤ rustTag.bytes.getD 2 0 ∧ rustTag.bytes.getD 2 0 ≤ 90) ∧
    (rustTag.isSafeToCopy = true ↔
      97 ≤ rustTag.bytes.getD 3 0 ∧ rustTag.bytes.getD 3 0 ≤ 122) ∧
    rustTag.isValid = rustTag.isReservedBitValid :=
  claim_C7 rustTag (by decide)

/-- C8: for a payload fitting the 32-bit length field, `Chunk::new` always
succeeds, storing the payload byte count as the length and the CRC over tag
bytes ++ payload as the checksum; an oversize payload is reported as a
failure (the aborting `unwrap`), never silently truncated. -/
theorem claim_C8 (t : ChunkType) (p : List Nat) :
    (p.length < 4294967296 →
      Chunk.new t p = some { len := p.length, chunkType := t, data := p,
                             crc := calculateCrc t p }) ∧
    (4294967296 ≤ p.length → Chunk.new t p = none) := by
  constructor
  · intro h
    unfold Chunk.new
    rw [if_pos h]
  · intro h
    unfold Chunk.new
    rw [if_neg (by omega)]

/-- C8 witness: creation at a small payload, and the oversize failure at a
payload of 2^32 zero bytes. -/
theorem claim_C8_witness :
    Chunk.new rustTag [7] =
      some { len := 1, chunkType := rustTag, data := [7],
             crc := calculateCrc rustTag [7] } ∧
    Chunk.new rustTag (List.replicate 4294967296 0) = none :=
  ⟨(claim_C8 rustTag [7]).1 (by decide),
   (claim_C8 rustTag (List.replicate 4294967296 0)).2 (by
     rw [List.length_replicate])⟩

/-- C9 (amended): the ASCII payload `"This is where your secret message will
be!"` has 42 bytes, and `Record.create` on the tag `"RuSt"` with it reports
length 42 (not 44) and checksum 2882656334. -/
theorem claim_C9 :
    secretMessage.length = 42 ∧
      Chunk.new rustTag secretMessage = some rustChunk ∧
      rustChunk.len = 42 ∧ rustChunk.crc = 2882656334 := by
  decide

/-- C9 counterexample: the payload has 42 bytes, not 44, and the created
record's length is not 44. -/
theorem claim_C9_counterexample :
    secretMessage.length ≠ 44 ∧
      (Chunk.new rustTag secretMessage).map Chunk.len ≠ some 44 := by
  decide

/-- C10: a byte slice beginning with one complete well-formed serialized
Record (correct length field, legal tag, full payload, and — when the length
is nonzero — a matching trailing checksum) parses successfully to that
Record, whatever bytes follow it. -/
theorem claim_C10 (t : ChunkType) (p : List Nat) (c : Nat) (extra : List Nat)
    (ht : t.WF) (hp : ∀ b ∈ p, b < 256) (hlen : p.length < 4294967296)
    (hcrc : p ≠ [] → c = calculateCrc t p) :
    Chunk.tryFrom (u32ToBE p.length ++ t.bytes ++ p ++ u32ToBE c ++ extra) =
      .ok { len := p.length, chunkType := t, data := p,
            crc := calculateCrc t p } := by
  by_cases hpe : p = []
  · subst hpe
    rw [show u32ToBE (List.length []) ++ t.bytes ++ ([] : List Nat) ++
          u32ToBE c ++ extra =
        u32ToBE 0 ++ t.bytes ++ (u32ToBE c ++ extra) by
      simp [List.append_assoc]]
    unfold Chunk.tryFrom
    rw [Chunk.parseFrom_zero ht]
    rfl
  · have hc' := hcrc hpe
    subst hc'
    have hcb := calculateCrc_lt ht hp
    unfold Chunk.tryFrom
    rw [Chunk.parseFrom_pos ht hpe hlen hcb extra, if_pos rfl]
    rfl

/-- C10 witness: a two-byte record followed by three junk bytes parses to
exactly the leading record. -/
theorem claim_C10_witness :
    Chunk.tryFrom (u32ToBE (List.length [1, 2]) ++ rustTag.bytes ++ [1, 2] ++
        u32ToBE (calculateCrc rustTag [1, 2]) ++ [9, 9, 9]) =
      .ok { len := (2 : Nat), chunkType := rustTag, data := [1, 2],
            crc := calculateCrc rustTag [1, 2] } :=
  claim_C10 rustTag [1, 2] (calculateCrc rustTag [1, 2]) [9, 9, 9]
    (by decide) (by decide) (by decide) (fun _ => rfl)

end Pngme
